import Mathlib

/-!
Verification of the hourly-activity aggregation routine of `bepoyt.py`
(`get_best_time_for_keyword` and its `@st.cache_data(ttl=3600)` wrapper).

The embedding follows the source line by line:
* a fetched sample is a pair (hour-of-day, interest value); hours are `ℕ`
  and interest values are `ℚ` (the script works with pandas floats; all the
  arithmetic it performs — means, rolling means, variance — is rational in
  the inputs, so `ℚ` is used, with `ℝ` only where `std()` takes a square
  root);
* the retry `while` loop (lines 118-142) is modelled as a fuelled recursion
  over an oracle `ℕ → FetchOutcome` giving the outcome of each attempt of
  `pytrends.interest_over_time()`; divergence shows up as "out of fuel for
  every fuel bound";
* `groupby('hour').mean()` is `bucket` (pandas sorts group keys
  ascending), `rolling(window := 3 centered, min periods 1).mean()` is
  `smooth`, `idxmax` is `bestHour` (first index attaining the maximum),
  and line 159's confidence formula is `confidence`;
* `st.cache_data(ttl=3600)` is `cachedCompute`: a memo table keyed by the
  keyword argument whose entries expire 3600 seconds after being stored;
  every returned value is memoised (the wrapped function never raises).
-/

namespace Bepoyt

/-- A fetched sample: the hour-of-day component of its timestamp
(`data['date'].dt.hour`) together with its interest value. -/
abbrev Sample := ℕ × ℚ

/-- Outcome of one attempt of the body of the retry loop
(`build_payload` + `interest_over_time`, lines 124-132): either a
successful result (possibly an empty frame) or a raised exception,
carried as its message string. -/
inductive FetchOutcome where
| ok (samples : List Sample)
| exc (msg : String)

/-- Result of the retry `while` loop, lines 122-142. `noFuel` marks that
the given fuel bound was not enough for the loop to finish. -/
inductive LoopRes where
| gotData (samples : List Sample)
| raised (msg : String)
| noFuel

/-- `max_attempts = 3`, line 120. -/
def maxAttempts : ℕ := 3

/-- The retry loop, lines 122-142.  One iteration fetches once; a
non-empty result breaks out of the loop; an exception increments
`error_count` and is re-raised once `error_count` reaches `max_attempts`;
an empty result neither breaks nor increments `error_count` (the source
has no branch for it), so the loop starts the next attempt unchanged.
Returns the loop result together with the number of fetch attempts made. -/
def loopFetch (oracle : ℕ → FetchOutcome) : ℕ → ℕ → ℕ → LoopRes × ℕ
| _, _, 0 => (LoopRes.noFuel, 0)
| attempt, errCount, fuel + 1 =>
  match oracle attempt with
  | FetchOutcome.ok s =>
    if s.isEmpty then
      let r := loopFetch oracle (attempt + 1) errCount fuel
      (r.1, r.2 + 1)
    else (LoopRes.gotData s, 1)
  | FetchOutcome.exc e =>
    if errCount + 1 < maxAttempts then
      let r := loopFetch oracle (attempt + 1) (errCount + 1) fuel
      (r.1, r.2 + 1)
    else (LoopRes.raised e, 1)

/-- Arithmetic mean of a list of values, as computed by pandas `mean()`.
(For the empty list rational division by zero yields `0`; every use in
the pipeline is on a non-empty list.) -/
def mean (vs : List ℚ) : ℚ := vs.sum / (vs.length : ℚ)

/-- Insert an hour into a strictly ascending list of hours, keeping it
strictly ascending.  Folding this over the samples reproduces the sorted
distinct group keys of pandas `groupby('hour')`. -/
def insertHour (h : ℕ) : List ℕ → List ℕ
| [] => [h]
| x :: xs =>
  if h < x then h :: x :: xs
  else if h = x then x :: xs
  else x :: insertHour h xs

/-- The sorted distinct hours present in a sample list: the index of
`data.groupby('hour')` (pandas sorts group keys ascending). -/
def hoursOf (s : List Sample) : List ℕ := (s.map Prod.fst).foldr insertHour []

/-- The interest values of the samples falling in hour `h`. -/
def valuesAt (s : List Sample) (h : ℕ) : List ℚ :=
  (s.filter (fun p => p.1 == h)).map Prod.snd

/-- `data.groupby('hour').mean()[keyword]`, line 150: for each hour
present in the samples (ascending), the arithmetic mean of the values in
that bucket. -/
def bucket (s : List Sample) : List (ℕ × ℚ) :=
  (hoursOf s).map (fun h => (h, mean (valuesAt s h)))

/-- Worker for `smooth`: `prev` carries the value one position before the
head (none at the first position).  Each output value is the mean of the
window of positions i-1, i, i+1 clipped to the series — pandas
`rolling(window = 3, center = True, min periods = 1).mean()`, which is
positional over the series, lines 152-156. -/
def smoothGo (prev : Option ℚ) : List (ℕ × ℚ) → List (ℕ × ℚ)
| [] => []
| [(h, v)] => [(h, mean (prev.toList ++ [v]))]
| (h, v) :: p2 :: rest =>
  (h, mean (prev.toList ++ [v, p2.2])) :: smoothGo (some v) (p2 :: rest)

/-- The centered window-3 min-periods-1 rolling mean applied to the
bucketed series, lines 152-156. -/
def smooth (c : List (ℕ × ℚ)) : List (ℕ × ℚ) := smoothGo none c

/-- `idxmax` over the series: the first (key, value) pair whose value is
not exceeded later in the list — pandas returns the first occurrence of
the maximum. -/
def bestPair : List (ℕ × ℚ) → Option (ℕ × ℚ)
| [] => none
| p :: rest =>
  match bestPair rest with
  | none => some p
  | some q => if q.2 > p.2 then some q else some p

/-- `best_hour = hourly_interest.idxmax()`, line 158. -/
def bestHour (c : List (ℕ × ℚ)) : Option ℕ := (bestPair c).map Prod.fst

/-- Sample variance with denominator n-1, the square of pandas
`Series.std()` (default `ddof = 1`).  (For n ≤ 1 rational division by
zero yields `0`; the source produces NaN there, handled in
`confidence`.) -/
def sampleVar (vs : List ℚ) : ℚ :=
  (vs.map (fun x => (x - mean vs) ^ 2)).sum / ((vs.length : ℚ) - 1)

/-- Line 159: `min(100, (1 - hourly_interest.std() / hourly_interest.mean()) * 100)`.
When the series has a single element, `std()` (ddof 1) is NaN; when the
mean is zero the values of the pipeline are all zero and `std()/mean()`
is NaN as well.  In both cases Python's `min(100, nan)` keeps its first
argument, so the source returns `100`; the first branch encodes exactly
that.  Otherwise the formula is literal, with `std` as the real square
root of the sample variance. -/
noncomputable def confidence (vs : List ℚ) : ℝ :=
  if vs.length ≤ 1 ∨ mean vs = 0 then 100
  else min 100 ((1 - Real.sqrt ((sampleVar vs : ℚ) : ℝ) / ((mean vs : ℚ) : ℝ)) * 100)

/-- `not keyword.strip()`, line 112: true iff the keyword is empty or
whitespace-only. -/
def isBlank (kw : String) : Bool := kw.data.all Char.isWhitespace

/-- Message of line 113. -/
def validationMsg : String := "Please enter a valid keyword"

/-- Message of line 166. -/
def rateLimitedMsg : String := "Too many requests. Please wait a few minutes before trying again."

/-- Message of line 168. -/
def authMsg : String := "Temporary API access issue. Please try again in a few moments."

/-- Whether the lowercased `s` contains `pat` as a substring: models
Python's `pat in s.lower()` used on `error_msg = str(e).lower()`,
line 164. -/
def lowerContains (s pat : String) : Bool :=
  decide (pat.data <:+: s.data.map Char.toLower)

/-- Whether `s` contains `pat` verbatim as a substring. -/
def containsStr (s pat : String) : Bool := decide (pat.data <:+: s.data)

/-- The user-facing message produced by the outer `except` handler,
lines 163-170, as a function of the raised exception's text. -/
def errorMessage (e : String) : String :=
  if lowerContains e "429" then rateLimitedMsg
  else if lowerContains e "authentication" || lowerContains e "unauthorized" then authMsg
  else "An error occurred: " ++ e ++ ". Please try again later."

/-- An ASCII single quote, kept out of string literals. -/
def quoteChar : Char := Char.ofNat 39

/-- Message of line 145. -/
def noDataMsg (kw : String) : String :=
  "No data available for " ++ String.singleton quoteChar ++ kw ++ String.singleton quoteChar
    ++ ". Try a different keyword."

/-- The triple returned by `get_best_time_for_keyword`:
`(hourly_interest, best_hour, confidence_score)`, each component `none`
when the source returns Python `None` for it. -/
abbrev Triple := Option (List (ℕ × ℚ)) × Option ℕ × Option ℝ

/-- One un-memoised run of the body of `get_best_time_for_keyword`:
the returned triple (`none` when the run never returns within the given
fuel), the number of fetch attempts made, and the `st.error`/`st.warning`
messages shown to the user. -/
structure ComputeOut where
  res : Option Triple
  fetches : ℕ
  msgs : List String

/-- The body of `get_best_time_for_keyword`, lines 111-171: validate the
keyword, run the retry loop, and on data aggregate
(bucket → smooth → idxmax → confidence); any exception escaping the loop
is classified by `errorMessage` and turned into `(None, None, None)`. -/
noncomputable def computeCore (kw : String) (oracle : ℕ → FetchOutcome) (fuel : ℕ) :
    ComputeOut :=
  if isBlank kw then ⟨some (none, none, none), 0, [validationMsg]⟩
  else
    match loopFetch oracle 0 0 fuel with
    | (LoopRes.noFuel, n) => ⟨none, n, []⟩
    | (LoopRes.raised e, n) => ⟨some (none, none, none), n, [errorMessage e]⟩
    | (LoopRes.gotData s, n) =>
      if s.isEmpty then ⟨some (none, none, none), n, [noDataMsg kw]⟩
      else
        ⟨some (some (smooth (bucket s)), bestHour (smooth (bucket s)),
          some (confidence ((smooth (bucket s)).map Prod.snd))), n, []⟩

/-- One memo entry of `st.cache_data`: the keyword argument, the time the
value was stored, and the stored return value. -/
structure CacheEntry where
  kw : String
  storedAt : ℕ
  val : Triple

/-- `ttl=3600`, line 108 (seconds). -/
def cacheTTL : ℕ := 3600

/-- Look up a keyword in the memo table at time `now`: an entry is valid
until `cacheTTL` seconds after it was stored. -/
def lookupCache (cache : List CacheEntry) (kw : String) (now : ℕ) : Option Triple :=
  (cache.find? (fun c => c.kw == kw && decide (now - c.storedAt < cacheTTL))).map
    (fun c => c.val)

/-- `get_best_time_for_keyword` as called through `@st.cache_data(ttl=3600)`:
on a valid cached entry for the same keyword the stored triple is
returned with no fetch; otherwise the body runs and its return value —
whatever it is, the wrapped function never raises — is memoised.
Returns (result, new memo table, fetch attempts made by this call). -/
noncomputable def cachedCompute (cache : List CacheEntry) (kw : String) (now : ℕ)
    (oracle : ℕ → FetchOutcome) (fuel : ℕ) : Option Triple × List CacheEntry × ℕ :=
  match lookupCache cache kw now with
  | some t => (some t, cache, 0)
  | none =>
    match (computeCore kw oracle fuel).res with
    | none => (none, cache, (computeCore kw oracle fuel).fetches)
    | some t => (some t, ⟨kw, now, t⟩ :: cache, (computeCore kw oracle fuel).fetches)

/-- Two instants fall on the same calendar day (days of 86400 seconds). -/
def sameDay (t1 t2 : ℕ) : Bool := t1 / 86400 == t2 / 86400

/-- An oracle whose every fetch attempt succeeds with zero samples. -/
def emptyOracle : ℕ → FetchOutcome := fun _ => FetchOutcome.ok []

/-- An oracle whose every fetch attempt succeeds with one sample. -/
def goodOracle : ℕ → FetchOutcome := fun _ => FetchOutcome.ok [(9, 50)]

/-- An oracle whose every fetch attempt raises an unclassified error. -/
def boomOracle : ℕ → FetchOutcome := fun _ => FetchOutcome.exc "boom"

/-! ### Helper lemmas -/

lemma loopFetch_empty (fuel : ℕ) : ∀ attempt errCount,
    loopFetch emptyOracle attempt errCount fuel = (LoopRes.noFuel, fuel) := by
  induction fuel with
  | zero => intro a e; rfl
  | succ n ih => intro a e; simp [loopFetch, emptyOracle, ih]

lemma mem_insertHour {a h : ℕ} : ∀ {l : List ℕ}, a ∈ insertHour h l ↔ a = h ∨ a ∈ l := by
  intro l
  induction l with
  | nil => simp [insertHour]
  | cons x xs ih =>
    by_cases h1 : h < x
    · simp [insertHour, h1]
    · by_cases h2 : h = x
      · subst h2
        simp [insertHour, h1]
      · simp [insertHour, h1, h2, ih]
        tauto

lemma insertHour_pairwise {h : ℕ} : ∀ {l : List ℕ}, l.Pairwise (· < ·) →
    (insertHour h l).Pairwise (· < ·) := by
  intro l
  induction l with
  | nil => intro _; simp [insertHour]
  | cons x xs ih =>
    intro hl
    obtain ⟨hhead, htail⟩ := List.pairwise_cons.mp hl
    by_cases h1 : h < x
    · simp only [insertHour, if_pos h1]
      refine List.pairwise_cons.mpr ⟨?_, hl⟩
      intro b hb
      rcases List.mem_cons.mp hb with rfl | hb'
      · exact h1
      · exact h1.trans (hhead b hb')
    · by_cases h2 : h = x
      · simpa [insertHour, h1, h2] using hl
      · have hxh : x < h := by omega
        simp only [insertHour, if_neg h1, if_neg h2]
        refine List.pairwise_cons.mpr ⟨?_, ih htail⟩
        intro b hb
        rcases mem_insertHour.mp hb with rfl | hb'
        · exact hxh
        · exact hhead b hb'

lemma insertHour_ne_nil (h : ℕ) (l : List ℕ) : insertHour h l ≠ [] := by
  cases l with
  | nil => simp [insertHour]
  | cons x xs =>
    simp only [insertHour]
    split
    · simp
    · split <;> simp

lemma hoursOf_pairwise (s : List Sample) : (hoursOf s).Pairwise (· < ·) := by
  unfold hoursOf
  induction s with
  | nil => simp
  | cons p rest ih => exact insertHour_pairwise ih

lemma hoursOf_ne_nil {s : List Sample} (hs : s ≠ []) : hoursOf s ≠ [] := by
  cases s with
  | nil => exact absurd rfl hs
  | cons p rest => exact insertHour_ne_nil _ _

lemma bucket_keys (s : List Sample) : (bucket s).map Prod.fst = hoursOf s := by
  simp [bucket, List.map_map, Function.comp_def]

lemma bucket_ne_nil {s : List Sample} (hs : s ≠ []) : bucket s ≠ [] := by
  simpa [bucket] using hoursOf_ne_nil hs

lemma smoothGo_keys : ∀ (c : List (ℕ × ℚ)) (prev : Option ℚ),
    (smoothGo prev c).map Prod.fst = c.map Prod.fst := by
  intro c
  induction c with
  | nil => intro prev; rfl
  | cons p tl ih =>
    intro prev
    cases tl with
    | nil => obtain ⟨h, v⟩ := p; rfl
    | cons q rest =>
      obtain ⟨h, v⟩ := p
      simp [smoothGo, ih (some v)]

lemma smooth_keys (c : List (ℕ × ℚ)) : (smooth c).map Prod.fst = c.map Prod.fst :=
  smoothGo_keys c none

lemma smooth_ne_nil {c : List (ℕ × ℚ)} (hc : c ≠ []) : smooth c ≠ [] := by
  intro h
  apply hc
  have hk := smooth_keys c
  rw [h] at hk
  exact List.map_eq_nil_iff.mp hk.symm

lemma bestPair_cons (p : ℕ × ℚ) (rest : List (ℕ × ℚ)) :
    bestPair (p :: rest) =
      match bestPair rest with
      | none => some p
      | some q => if q.2 > p.2 then some q else some p := rfl

lemma bestPair_isSome {c : List (ℕ × ℚ)} (hc : c ≠ []) : ∃ p, bestPair c = some p := by
  cases c with
  | nil => exact absurd rfl hc
  | cons p rest =>
    cases hq : bestPair rest with
    | none => exact ⟨p, by simp [bestPair, hq]⟩
    | some q =>
      by_cases hgt : q.2 > p.2
      · exact ⟨q, by simp [bestPair, hq, hgt]⟩
      · exact ⟨p, by simp [bestPair, hq, hgt]⟩

lemma bestPair_spec : ∀ (c : List (ℕ × ℚ)), c ≠ [] →
    ((c.map Prod.fst).Pairwise (· < ·)) →
    ∃ bh v, bestPair c = some (bh, v) ∧ (bh, v) ∈ c ∧
      (∀ p ∈ c, p.2 ≤ v) ∧ (∀ p ∈ c, p.2 = v → bh ≤ p.1) := by
  intro c
  induction c with
  | nil => intro h; exact absurd rfl h
  | cons p rest ih =>
    intro _ hsort
    rw [List.map_cons] at hsort
    obtain ⟨hhead, htail⟩ := List.pairwise_cons.mp hsort
    cases hrest : rest with
    | nil =>
      subst hrest
      refine ⟨p.1, p.2, rfl, by simp, ?_, ?_⟩
      · intro x hx
        rcases List.mem_cons.mp hx with rfl | hx'
        · exact le_refl _
        · simp at hx'
      · intro x hx _
        rcases List.mem_cons.mp hx with rfl | hx'
        · exact le_refl _
        · simp at hx'
    | cons q0 rest' =>
      subst hrest
      obtain ⟨bh, v, hbp, hmem, hmax, htie⟩ := ih (by simp) htail
      by_cases hgt : v > p.2
      · refine ⟨bh, v, ?_, List.mem_cons_of_mem _ hmem, ?_, ?_⟩
        · rw [bestPair_cons, hbp]
          simp [hgt]
        · intro x hx
          rcases List.mem_cons.mp hx with rfl | hx'
          · exact le_of_lt hgt
          · exact hmax x hx'
        · intro x hx hxv
          rcases List.mem_cons.mp hx with rfl | hx'
          · exact absurd hxv (ne_of_lt hgt)
          · exact htie x hx' hxv
      · refine ⟨p.1, p.2, ?_, by simp, ?_, ?_⟩
        · rw [bestPair_cons, hbp]
          simp [hgt]
        · intro x hx
          rcases List.mem_cons.mp hx with rfl | hx'
          · exact le_refl _
          · exact le_trans (hmax x hx') (not_lt.mp hgt)
        · intro x hx _
          rcases List.mem_cons.mp hx with rfl | hx'
          · exact le_refl _
          · exact le_of_lt (hhead x.1 (List.mem_map_of_mem Prod.fst hx'))

lemma smooth_bucket_sorted (s : List Sample) :
    ((smooth (bucket s)).map Prod.fst).Pairwise (· < ·) := by
  rw [smooth_keys, bucket_keys]
  exact hoursOf_pairwise s

/-! ### Claim theorems -/

/-- The sample list of the confidence counterexample: one sample per hour
0-5, interest 0 everywhere except 100 at hour 5 — values the upstream API
(interest scores in [0,100]) can produce. -/
def cEx : List Sample := [(0, 0), (1, 0), (2, 0), (3, 0), (4, 0), (5, 100)]

/-- C1 (counterexample): the confidence score computed by line 159 for the
smoothed curve of the concrete sample set `cEx` is strictly negative —
`min(100, ...)` clamps only from above, so the claim that confidence is
always in [0,100] or absent is false. -/
theorem confidence_neg_example :
    confidence ((smooth (bucket cEx)).map Prod.snd) < 0 := by
  have hv : (smooth (bucket cEx)).map Prod.snd = [0, 0, 0, 0, 100/3, 50] := by
    simp [cEx, bucket, hoursOf, insertHour, valuesAt, mean, smooth, smoothGo]
    norm_num
  rw [hv]
  have hm : mean [0, 0, 0, 0, 100/3, 50] = 125/9 := by
    simp [mean]
    norm_num
  have hVar : sampleVar [0, 0, 0, 0, 100/3, 50] = 13250/27 := by
    simp [sampleVar, mean]
    norm_num
  have hcond : ¬(([0, 0, 0, 0, (100:ℚ)/3, 50].length ≤ 1) ∨
      mean [0, 0, 0, 0, (100:ℚ)/3, 50] = 0) := by
    rw [hm]
    norm_num
  unfold confidence
  rw [if_neg hcond, hm, hVar]
  have hcast1 : (((13250:ℚ)/27 : ℚ) : ℝ) = 13250/27 := by push_cast; ring
  have hcast2 : (((125:ℚ)/9 : ℚ) : ℝ) = 125/9 := by push_cast; ring
  rw [hcast1, hcast2]
  have hs : (125/9 : ℝ) < Real.sqrt (13250/27) := by
    rw [Real.lt_sqrt (by norm_num)]
    norm_num
  have hm0 : (0:ℝ) < 125/9 := by norm_num
  have h1 : 1 < Real.sqrt (13250/27) / (125/9 : ℝ) := (one_lt_div hm0).mpr hs
  have h2 : (1 - Real.sqrt (13250/27) / (125/9 : ℝ)) * 100 < 0 :=
    mul_neg_of_neg_of_pos (by linarith) (by norm_num)
  exact lt_of_le_of_lt (min_le_right _ _) h2

/-- C1 (amended): the confidence of line 159 is clamped from above only:
it is always ≤ 100 but can be negative, and when the mean of the smoothed
curve is zero (or the curve has a single bucket, where the sample std is
NaN) the call returns 100 — Python's `min(100, nan)` — rather than an
absent value or a crash. -/
theorem confidence_le_100 :
    (∀ vs : List ℚ, confidence vs ≤ 100) ∧
    (∀ vs : List ℚ, mean vs = 0 → confidence vs = 100) := by
  constructor
  · intro vs
    unfold confidence
    split
    · exact le_refl _
    · exact min_le_left _ _
  · intro vs h
    unfold confidence
    rw [if_pos (Or.inr h)]

/-- Witness for C1 (amended) at the concrete all-zero two-bucket curve. -/
theorem confidence_le_100_witness : confidence [0, 0] = 100 :=
  confidence_le_100.2 [0, 0] (by simp [mean])

/-- C2 (code bug): a fetch that succeeds with zero samples never makes
the call return a no-data result: the loop retries it without
incrementing `error_count`, so with every attempt returning an empty
frame the call never returns (no fuel bound suffices) and performs one
fetch per fuel unit; the no-data branch of lines 144-146 is
unreachable, and — contrary to the claim — nothing is ever produced for
`st.cache_data` to skip. -/
theorem empty_fetch_never_returns (fuel : ℕ) :
    (computeCore "video" emptyOracle fuel).res = none ∧
    (computeCore "video" emptyOracle fuel).fetches = fuel := by
  have hb : isBlank "video" = false := by decide
  have hl := loopFetch_empty fuel 0 0
  constructor <;> simp [computeCore, hb, hl]

/-- C3 (code bug): the retry loop of lines 122-142 does not terminate
within any bound when every fetch attempt succeeds with an empty result:
for every fuel bound and every loop state the loop only runs out of
fuel, fetching once per fuel unit — `error_count` is only incremented on
exceptions, so the `max_attempts` budget never binds. -/
theorem retry_loop_diverges_on_empty (fuel attempt errCount : ℕ) :
    loopFetch emptyOracle attempt errCount fuel = (LoopRes.noFuel, fuel) :=
  loopFetch_empty fuel attempt errCount

/-- C4 (counterexample): two calls with the same keyword on the same
calendar day, 7200 seconds apart, perform two network fetches — the
`st.cache_data(ttl=3600)` memo is keyed by keyword with a 1-hour TTL,
not by calendar day. -/
theorem same_day_two_fetches :
    sameDay 0 7200 = true ∧
    (cachedCompute [] "cat" 0 goodOracle 5).2.2 +
      (cachedCompute (cachedCompute [] "cat" 0 goodOracle 5).2.1 "cat" 7200 goodOracle 5).2.2
      = 2 :=
  ⟨rfl, rfl⟩

/-- C4 (amended): the cache epoch is the 1-hour TTL window of
`st.cache_data(ttl=3600)`, not the calendar day: if a first call (empty
cache) returns a value and a second call with the same keyword runs
within 3600 seconds of it, the second call performs zero network fetches
and returns the structurally identical value. -/
theorem cache_hit_within_ttl (kw : String) (t1 t2 : ℕ) (oracle : ℕ → FetchOutcome)
    (fuel : ℕ) (t : Triple)
    (h1 : (cachedCompute [] kw t1 oracle fuel).1 = some t)
    (h2 : t2 - t1 < cacheTTL) :
    (cachedCompute (cachedCompute [] kw t1 oracle fuel).2.1 kw t2 oracle fuel).1 = some t ∧
    (cachedCompute (cachedCompute [] kw t1 oracle fuel).2.1 kw t2 oracle fuel).2.2 = 0 := by
  have hl : lookupCache [] kw t1 = none := rfl
  cases hres : (computeCore kw oracle fuel).res with
  | none =>
    exfalso
    rw [cachedCompute, hl, hres] at h1
    exact Option.noConfusion h1
  | some t' =>
    have ht : t' = t := by
      rw [cachedCompute, hl, hres] at h1
      exact Option.some.inj h1
    subst ht
    have hfirst : (cachedCompute [] kw t1 oracle fuel).2.1 = [⟨kw, t1, t'⟩] := by
      rw [cachedCompute, hl, hres]
    rw [hfirst]
    have hlook : lookupCache [⟨kw, t1, t'⟩] kw t2 = some t' := by
      simp [lookupCache, List.find?, h2]
    constructor <;> rw [cachedCompute, hlook]

/-- Witness for C4 (amended): concrete keyword, times 0 and 100. -/
theorem cache_hit_within_ttl_witness :
    (cachedCompute (cachedCompute [] "cat" 0 goodOracle 5).2.1 "cat" 100 goodOracle 5).1
      = some (((cachedCompute [] "cat" 0 goodOracle 5).1).getD (none, none, none)) ∧
    (cachedCompute (cachedCompute [] "cat" 0 goodOracle 5).2.1 "cat" 100 goodOracle 5).2.2
      = 0 :=
  cache_hit_within_ttl "cat" 0 100 goodOracle 5 _ rfl (by decide)

/-- C5 (counterexample): when the retry budget is exhausted by an
exception whose text matches neither "429" nor the auth keywords, line
170 shows the raw exception text verbatim inside the user-facing
message. -/
theorem raw_error_text_shown :
    (computeCore "video" boomOracle 5).msgs
        = ["An error occurred: boom. Please try again later."] ∧
    containsStr "An error occurred: boom. Please try again later." "boom" = true := by
  constructor
  · decide
  · decide

/-- C5 (amended): failures matching "429" or the auth keywords get fixed
coarse messages, but every other failure's user-facing message embeds
the raw exception text verbatim. -/
theorem error_classification (e : String) :
    (lowerContains e "429" = true → errorMessage e = rateLimitedMsg) ∧
    (lowerContains e "429" = false →
      (lowerContains e "authentication" || lowerContains e "unauthorized") = true →
      errorMessage e = authMsg) ∧
    (lowerContains e "429" = false →
      (lowerContains e "authentication" || lowerContains e "unauthorized") = false →
      containsStr (errorMessage e) e = true) := by
  refine ⟨?_, ?_, ?_⟩
  · intro h
    simp [errorMessage, h]
  · intro h1 h2
    simp [errorMessage, h1, h2]
  · intro h1 h2
    simp only [errorMessage, h1, h2, Bool.false_eq_true, if_false]
    simp only [containsStr, String.data_append, decide_eq_true_eq]
    exact List.infix_append _ _ _

/-- Witness for C5 (amended), one concrete input per classification. -/
theorem error_classification_witness :
    errorMessage "HTTP Error 429" = rateLimitedMsg ∧
    errorMessage "Unauthorized" = authMsg ∧
    containsStr (errorMessage "boom") "boom" = true :=
  ⟨(error_classification "HTTP Error 429").1 (by decide),
   (error_classification "Unauthorized").2.1 (by decide) (by decide),
   (error_classification "boom").2.2 (by decide) (by decide)⟩

/-- C6: a blank keyword (empty or whitespace-only, line 112) makes the
call return the failure triple with the validation message after zero
fetch attempts — no network call is ever made. -/
theorem blank_keyword_no_fetch (kw : String) (oracle : ℕ → FetchOutcome) (fuel : ℕ)
    (h : isBlank kw = true) :
    computeCore kw oracle fuel = ⟨some (none, none, none), 0, [validationMsg]⟩ := by
  simp [computeCore, h]

/-- Witness for C6 at the whitespace-only keyword. -/
theorem blank_keyword_no_fetch_witness :
    computeCore "   " emptyOracle 3 = ⟨some (none, none, none), 0, [validationMsg]⟩ :=
  blank_keyword_no_fetch "   " emptyOracle 3 (by decide)

/-- C7: for every non-empty sample list, `idxmax` of the smoothed curve
is one of the curve's keys, its value is maximal, and among keys
attaining the maximum it is the smallest hour (pandas returns the first
occurrence and the groupby index is sorted ascending). -/
theorem best_hour_is_argmax (s : List Sample) (hs : s ≠ []) :
    ∃ bh v, bestHour (smooth (bucket s)) = some bh ∧
      (bh, v) ∈ smooth (bucket s) ∧
      (∀ p ∈ smooth (bucket s), p.2 ≤ v) ∧
      (∀ p ∈ smooth (bucket s), p.2 = v → bh ≤ p.1) := by
  have hcne : smooth (bucket s) ≠ [] := smooth_ne_nil (bucket_ne_nil hs)
  obtain ⟨bh, v, hbp, hmem, hmax, htie⟩ :=
    bestPair_spec (smooth (bucket s)) hcne (smooth_bucket_sorted s)
  exact ⟨bh, v, by simp [bestHour, hbp], hmem, hmax, htie⟩

/-- Witness for C7 at the spec's own scenario: samples (9,10), (9,20),
(10,30). -/
theorem best_hour_is_argmax_witness :
    ([((9:ℕ), (10:ℚ)), (9, 20), (10, 30)] : List Sample) ≠ [] ∧
    (∃ bh v, bestHour (smooth (bucket [((9:ℕ), (10:ℚ)), (9, 20), (10, 30)])) = some bh ∧
      (bh, v) ∈ smooth (bucket [((9:ℕ), (10:ℚ)), (9, 20), (10, 30)]) ∧
      (∀ p ∈ smooth (bucket [((9:ℕ), (10:ℚ)), (9, 20), (10, 30)]), p.2 ≤ v) ∧
      (∀ p ∈ smooth (bucket [((9:ℕ), (10:ℚ)), (9, 20), (10, 30)]), p.2 = v → bh ≤ p.1)) :=
  ⟨by decide, best_hour_is_argmax _ (by decide)⟩

/-- C8: smoothing preserves the key set of the bucketed curve — the
rolling mean of lines 152-156 keeps exactly the index of its input
series, introducing and removing nothing. -/
theorem smoothing_preserves_keys (s : List Sample) :
    (smooth (bucket s)).map Prod.fst = (bucket s).map Prod.fst ∧
    (smooth (bucket s)).length = (bucket s).length := by
  refine ⟨smooth_keys _, ?_⟩
  have h := congrArg List.length (smooth_keys (bucket s))
  simpa using h

/-- C9: every returned triple is either the failure triple
`(None, None, None)` — produced identically by the blank-keyword, no-data
and exhausted-retry paths — or a fully populated success triple; no
failure path is distinguishable from another by return value alone. -/
theorem failure_paths_identical (kw : String) (oracle : ℕ → FetchOutcome) (fuel : ℕ)
    (t : Triple) (h : (computeCore kw oracle fuel).res = some t) :
    t = (none, none, none) ∨
    ∃ curve bh conf, t = (some curve, some bh, some conf) := by
  by_cases hb : isBlank kw
  · left
    simp [computeCore, hb] at h
    exact h.symm
  · rcases hlf : loopFetch oracle 0 0 fuel with ⟨lr, n⟩
    cases lr with
    | noFuel =>
      rw [computeCore] at h
      simp [hb, hlf] at h
    | raised e =>
      left
      rw [computeCore] at h
      simp [hb, hlf] at h
      exact h.symm
    | gotData s =>
      by_cases hse : s.isEmpty
      · left
        rw [computeCore] at h
        simp [hb, hlf, hse] at h
        exact h.symm
      · right
        rw [computeCore] at h
        simp [hb, hlf, hse] at h
        have hsne : s ≠ [] := by simpa [List.isEmpty_iff] using hse
        have hcne : smooth (bucket s) ≠ [] := smooth_ne_nil (bucket_ne_nil hsne)
        obtain ⟨p, hp⟩ := bestPair_isSome hcne
        refine ⟨smooth (bucket s), p.1,
          confidence ((smooth (bucket s)).map Prod.snd), ?_⟩
        rw [← h]
        simp [bestHour, hp]

/-- Witness for C9 at the blank-keyword failure path. -/
theorem failure_paths_identical_witness :
    ((none, none, none) : Triple) = (none, none, none) ∨
    ∃ curve bh conf, ((none, none, none) : Triple) = (some curve, some bh, some conf) :=
  failure_paths_identical "" emptyOracle 1 (none, none, none) rfl

/-- C10: the smoothing window is positional over the sorted bucket list,
not hour-adjacent: with buckets only at the non-contiguous hours 7, 12
and 18, each bucket is averaged with its positional neighbours even
though the hours differ by more than one. -/
theorem smoothing_is_positional (a b c : ℚ) :
    smooth [(7, a), (12, b), (18, c)] =
      [(7, (a + b) / 2), (12, (a + b + c) / 3), (18, (b + c) / 2)] := by
  simp only [smooth, smoothGo, Option.toList, List.nil_append, List.cons_append,
    mean, List.sum_cons, List.sum_nil, List.length_cons, List.length_nil]
  norm_num
  ring

end Bepoyt
